import Mathlib

/-!
Verification of the CodeChain extension registry and dispatch router
(`network/src/client.rs`) and of the asset-scheme cache item
(`core/src/state/asset_scheme.rs`), as a shallow embedding in Lean.

The registry (`Client`) is a `HashMap<String, Arc<NetworkExtension>>`
behind a read/write lock.  We model the map as an association list with
`HashMap::insert` semantics (replace in place, return the old value), the
extension trait object as a record of its observable data (`name()`,
`need_encryption()`) plus an allocation identity, and each dispatch
operation as the list of handler invocations it performs together with
the log lines it emits.  Concurrency is sequentialised: a run is a list
of operations applied in order, which is the behaviour guaranteed by the
lock discipline (dispatch holds the shared lock, registration the
exclusive one).
-/

namespace Net

/-- Data of a `NetworkExtension` trait object: its stable `name()`, its
`need_encryption()` policy flag, and an identity tag standing for the
`Arc` allocation, so that distinct extension objects can be told apart. -/
structure Extension where
  name : String
  need_encryption : Bool
  extId : Nat
deriving DecidableEq

/-- The dispatch callbacks of the `NetworkExtension` trait.  The
`Initialize` callback also receives the `Api` in the source; the argument
is omitted here because no claim inspects it. -/
inductive Callback where
  | Initialize
  | NodeAdded (id : Nat)
  | NodeRemoved (id : Nat)
  | Connected (id : Nat)
  | ConnectionAllowed (id : Nat)
  | ConnectionDenied (id : Nat) (err : Nat)
  | Message (id : Nat) (data : List Nat)
  | Close
  | TimerSetAllowed (timer_id : Nat)
  | TimerSetDenied (timer_id : Nat) (err : Nat)
  | Timeout (timer_id : Nat)
deriving DecidableEq

/-- A handler invocation: which extension object received which callback. -/
abbrev Event := Extension × Callback

/-- The `info!` log lines of `client.rs`, abstracted to their format
string and arguments. -/
inductive LogLine where
  | doesNotExist (name : String)
  | extensionAlreadyDropped
  | requestSendExtensionMessage (id : Nat)
  | cannotSendExtensionMessage (id : Nat)
  | requestNegotiationTo (id : Nat)
  | cannotRequestNegotiationTo (id : Nat)
  | setsTimer (name : String) (timer_id : Nat) (ms : Nat)
  | cannotSetTimer (name : String) (timer_id : Nat)
  | setsTimerOnce (name : String) (timer_id : Nat) (ms : Nat)
  | clearsTimer (name : String) (timer_id : Nat)
  | cannotClearTimer (name : String) (timer_id : Nat)
deriving DecidableEq

/-- `connection::HandlerMessage`: the outbound command vocabulary sent on
the `IoChannel` to the connection manager.  `NodeToken` and `TimerToken`
are `usize`, modelled as `Nat`; `Vec<u8>` is modelled as `List Nat`. -/
inductive ConnectionMessage where
  | SendExtensionMessage (node_id : Nat) (extension_name : String) (need_encryption : Bool) (data : List Nat)
  | RequestNegotiation (node_id : Nat) (extension_name : String) (version : Nat)
  | SetTimer (extension_name : String) (timer_id : Nat) (ms : Nat)
  | SetTimerOnce (extension_name : String) (timer_id : Nat) (ms : Nat)
  | ClearTimer (extension_name : String) (timer_id : Nat)
deriving DecidableEq

/-- `HashMap::get`: look up a key in the association list. -/
def hmGet : List (String × Extension) → String → Option Extension
  | [], _ => none
  | (k, v) :: rest, key => if k = key then some v else hmGet rest key

/-- `HashMap::insert`: replace the value stored under the key in place
and return the old value, or append a fresh entry and return `none`. -/
def hmInsert : List (String × Extension) → String → Extension → List (String × Extension) × Option Extension
  | [], key, v => ([(key, v)], none)
  | (k, v0) :: rest, key, v =>
    if k = key then ((k, v) :: rest, some v0)
    else
      let r := hmInsert rest key v
      ((k, v0) :: r.1, r.2)

/-- The `Client`: `extensions: RwLock<HashMap<String, Arc<NetworkExtension>>>`.
The lock is not modelled; runs are sequentialised. -/
structure ClientState where
  extensions : List (String × Extension)
deriving DecidableEq

/-- `Client::new()`: an empty registry. -/
def Client.new : ClientState := ⟨[]⟩

/-- Well-formedness of the registry map: keys are pairwise distinct (a
`HashMap` invariant) and every entry is stored under the name of its
extension (guaranteed by `register_extension`, which keys on
`extension.name()`). -/
def wfm (m : List (String × Extension)) : Prop :=
  (m.map Prod.fst).Nodup ∧ ∀ p ∈ m, p.1 = p.2.name

instance (m : List (String × Extension)) : Decidable (wfm m) := by
  unfold wfm; infer_instance

/-- An extension object is registered when the registry holds it under
its own name. -/
def Registered (st : ClientState) (e : Extension) : Prop :=
  (e.name, e) ∈ st.extensions

instance (st : ClientState) (e : Extension) : Decidable (Registered st e) := by
  unfold Registered; infer_instance

/-- `ClientApi`: the weak back-reference to the extension (modelled by
the allocation identity of the extension) and the shared `IoChannel`
handle (opaque). -/
structure ClientApi where
  extension : Nat
  channel : Nat
deriving DecidableEq

/-- A heap of live extension allocations: `Weak::upgrade` at the moment a
call is made resolves the identity to the current extension object, or to
`none` when the allocation is already dropped. -/
abbrev Heap := Nat → Option Extension

/-- `ClientApi::send`.  Returns the command handed to `channel.send` (or
`none` when the weak reference is dead) paired with the log lines;
`channelOk` is the success of `channel.send`. -/
def ClientApi.send (self : ClientApi) (heap : Heap) (channelOk : Bool) (id : Nat)
    (message : List Nat) : Option ConnectionMessage × List LogLine :=
  match heap self.extension with
  | some extension =>
    let need_encryption := extension.need_encryption
    let extension_name := extension.name
    let node_id := id
    let msg := ConnectionMessage.SendExtensionMessage node_id extension_name need_encryption message
    if channelOk then (some msg, [LogLine.requestSendExtensionMessage id])
    else (some msg, [LogLine.cannotSendExtensionMessage id])
  | none => (none, [LogLine.extensionAlreadyDropped])

/-- `ClientApi::connect`: request negotiation at fixed version `0`. -/
def ClientApi.connect (self : ClientApi) (heap : Heap) (channelOk : Bool)
    (id : Nat) : Option ConnectionMessage × List LogLine :=
  match heap self.extension with
  | some extension =>
    let extension_name := extension.name
    let version := 0
    let node_id := id
    let msg := ConnectionMessage.RequestNegotiation node_id extension_name version
    if channelOk then (some msg, [LogLine.requestNegotiationTo id])
    else (some msg, [LogLine.cannotRequestNegotiationTo id])
  | none => (none, [LogLine.extensionAlreadyDropped])

/-- `ClientApi::set_timer`. -/
def ClientApi.set_timer (self : ClientApi) (heap : Heap) (channelOk : Bool)
    (timer_id : Nat) (ms : Nat) : Option ConnectionMessage × List LogLine :=
  match heap self.extension with
  | some extension =>
    let extension_name := extension.name
    let msg := ConnectionMessage.SetTimer extension_name timer_id ms
    if channelOk then (some msg, [LogLine.setsTimer extension.name timer_id ms])
    else (some msg, [LogLine.cannotSetTimer extension.name timer_id])
  | none => (none, [LogLine.extensionAlreadyDropped])

/-- `ClientApi::set_timer_once`. -/
def ClientApi.set_timer_once (self : ClientApi) (heap : Heap) (channelOk : Bool)
    (timer_id : Nat) (ms : Nat) : Option ConnectionMessage × List LogLine :=
  match heap self.extension with
  | some extension =>
    let extension_name := extension.name
    let msg := ConnectionMessage.SetTimerOnce extension_name timer_id ms
    if channelOk then (some msg, [LogLine.setsTimerOnce extension.name timer_id ms])
    else (some msg, [LogLine.cannotSetTimer extension.name timer_id])
  | none => (none, [LogLine.extensionAlreadyDropped])

/-- `ClientApi::clear_timer`. -/
def ClientApi.clear_timer (self : ClientApi) (heap : Heap) (channelOk : Bool)
    (timer_id : Nat) : Option ConnectionMessage × List LogLine :=
  match heap self.extension with
  | some extension =>
    let extension_name := extension.name
    let msg := ConnectionMessage.ClearTimer extension_name timer_id
    if channelOk then (some msg, [LogLine.clearsTimer extension.name timer_id])
    else (some msg, [LogLine.cannotClearTimer extension.name timer_id])
  | none => (none, [LogLine.extensionAlreadyDropped])

/-- Outcome of `Client::register_extension`: the registry state at return
(or at the moment of the panic), whether the call panicked, the handler
invocations it performed, and the `Api` it returned. -/
structure RegisterResult where
  state : ClientState
  panicked : Bool
  events : List Event
  api : Option ClientApi
deriving DecidableEq

/-- `Client::register_extension`: insert under `extension.name()`; if the
insert returned a previous value, panic (`Duplicated application name`);
otherwise build the `Api` from the downgraded reference and the channel,
call `on_initialize(api)` synchronously, and return the `Api`.  Note the
insert runs before the duplicate check, so on the panic path the map
already holds the new extension. -/
def register_extension (st : ClientState) (extension : Extension) (channel : Nat) :
    RegisterResult :=
  let name := extension.name
  let r := hmInsert st.extensions name extension
  match r.2 with
  | some _ => ⟨⟨r.1⟩, true, [], none⟩
  | none =>
    let api : ClientApi := ⟨extension.extId, channel⟩
    ⟨⟨r.1⟩, false, [(extension, Callback.Initialize)], some api⟩

/-- Body of `define_broadcast_method!`: take the shared lock, iterate the
map, invoke the callback on every registered extension. -/
def broadcastDispatch (st : ClientState) (cb : Callback) : List Event × List LogLine :=
  (st.extensions.map (fun p => (p.2, cb)), [])

/-- Body of `define_method!`: take the shared lock, look up the named
extension; invoke the callback on it if present, otherwise only log. -/
def targetedDispatch (st : ClientState) (name : String) (cb : Callback) :
    List Event × List LogLine :=
  match hmGet st.extensions name with
  | some extension => ([(extension, cb)], [])
  | none => ([], [LogLine.doesNotExist name])

/-- `Client::on_node_added` (broadcast). -/
def on_node_added (st : ClientState) (id : Nat) : List Event × List LogLine :=
  broadcastDispatch st (Callback.NodeAdded id)

/-- `Client::on_node_removed` (broadcast). -/
def on_node_removed (st : ClientState) (id : Nat) : List Event × List LogLine :=
  broadcastDispatch st (Callback.NodeRemoved id)

/-- `Client::on_close` (broadcast). -/
def on_close (st : ClientState) : List Event × List LogLine :=
  broadcastDispatch st Callback.Close

/-- `Client::on_connected` (targeted). -/
def on_connected (st : ClientState) (name : String) (id : Nat) : List Event × List LogLine :=
  targetedDispatch st name (Callback.Connected id)

/-- `Client::on_connection_allowed` (targeted). -/
def on_connection_allowed (st : ClientState) (name : String) (id : Nat) :
    List Event × List LogLine :=
  targetedDispatch st name (Callback.ConnectionAllowed id)

/-- `Client::on_connection_denied` (targeted). -/
def on_connection_denied (st : ClientState) (name : String) (id : Nat) (err : Nat) :
    List Event × List LogLine :=
  targetedDispatch st name (Callback.ConnectionDenied id err)

/-- `Client::on_message` (targeted). -/
def on_message (st : ClientState) (name : String) (id : Nat) (data : List Nat) :
    List Event × List LogLine :=
  targetedDispatch st name (Callback.Message id data)

/-- `Client::on_timer_set_allowed` (targeted). -/
def on_timer_set_allowed (st : ClientState) (name : String) (timer_id : Nat) :
    List Event × List LogLine :=
  targetedDispatch st name (Callback.TimerSetAllowed timer_id)

/-- `Client::on_timer_set_denied` (targeted). -/
def on_timer_set_denied (st : ClientState) (name : String) (timer_id : Nat) (err : Nat) :
    List Event × List LogLine :=
  targetedDispatch st name (Callback.TimerSetDenied timer_id err)

/-- `Client::on_timeout` (targeted). -/
def on_timeout (st : ClientState) (name : String) (timer_id : Nat) :
    List Event × List LogLine :=
  targetedDispatch st name (Callback.Timeout timer_id)

/-- `impl Drop for Client { fn drop(&mut self) { self.on_close() } }`:
the handler invocations performed by the destructor. -/
def clientDrop (st : ClientState) : List Event :=
  (on_close st).1

/-- One call into the router.  `dropClient` is the destruction of the router;
`register` may panic; both end the run. -/
inductive Op where
  | register (extension : Extension) (channel : Nat)
  | nodeAdded (id : Nat)
  | nodeRemoved (id : Nat)
  | connected (name : String) (id : Nat)
  | connectionAllowed (name : String) (id : Nat)
  | connectionDenied (name : String) (id : Nat) (err : Nat)
  | message (name : String) (id : Nat) (data : List Nat)
  | timerSetAllowed (name : String) (timer_id : Nat)
  | timerSetDenied (name : String) (timer_id : Nat) (err : Nat)
  | timeout (name : String) (timer_id : Nat)
  | dropClient
deriving DecidableEq

/-- The handler invocations of one dispatch operation (`register` and
`dropClient` are handled separately in `step`). -/
def dispatchOf (st : ClientState) : Op → List Event × List LogLine
  | Op.nodeAdded id => on_node_added st id
  | Op.nodeRemoved id => on_node_removed st id
  | Op.connected name id => on_connected st name id
  | Op.connectionAllowed name id => on_connection_allowed st name id
  | Op.connectionDenied name id err => on_connection_denied st name id err
  | Op.message name id data => on_message st name id data
  | Op.timerSetAllowed name timer_id => on_timer_set_allowed st name timer_id
  | Op.timerSetDenied name timer_id err => on_timer_set_denied st name timer_id err
  | Op.timeout name timer_id => on_timeout st name timer_id
  | _ => ([], [])

/-- Result of one step: the registry state afterwards, the handler
invocations performed, and whether the run halted (panic or destruction). -/
structure StepResult where
  state : ClientState
  events : List Event
  halted : Bool
deriving DecidableEq

/-- One step of a run. -/
def step (st : ClientState) : Op → StepResult
  | Op.register extension channel =>
    let r := register_extension st extension channel
    ⟨r.state, r.events, r.panicked⟩
  | Op.dropClient => ⟨st, clientDrop st, true⟩
  | op => ⟨st, (dispatchOf st op).1, false⟩

/-- Result of a run: final state, the concatenated handler invocations in
order, and whether the run halted. -/
structure RunResult where
  state : ClientState
  events : List Event
  halted : Bool
deriving DecidableEq

/-- Run a list of operations in order, stopping at a panic or at the
destruction of the router (after either, no further call into the router can
occur). -/
def runC : ClientState → List Op → RunResult
  | st, [] => ⟨st, [], false⟩
  | st, op :: ops =>
    let s := step st op
    if s.halted then ⟨s.state, s.events, true⟩
    else
      let r := runC s.state ops
      ⟨r.state, s.events ++ r.events, r.halted⟩

/-- The full invocation trace of a run from a fresh `Client`. -/
def trace (ops : List Op) : List Event :=
  (runC Client.new ops).events

/-- The events of a trace addressed to one extension object. -/
def filterFor (e : Extension) (tr : List Event) : List Event :=
  tr.filter (fun ev => decide (ev.1 = e))

/-- Sample extension objects for concrete evaluations. -/
def extA : Extension := ⟨"e", false, 1⟩

def extB : Extension := ⟨"e", true, 2⟩

def extC : Extension := ⟨"e1", false, 3⟩

def extD : Extension := ⟨"e2", true, 4⟩

end Net

namespace Asset

/-- `AssetScheme` (`core/src/state/asset_scheme.rs`).  `H256` is modelled
as `List Nat` (32 bytes), `U256` as `Nat`, `Address` as `Nat`, `Bytes` as
`List Nat`. -/
structure AssetScheme where
  metadata : String
  lock_script : List Nat
  parameters : List (List Nat)
  remainder : Nat
  registrar : Option Nat
deriving DecidableEq

/-- `CacheableItem::overwrite_with` for `AssetScheme`: assigns `metadata`,
`lock_script`, `registrar` and `remainder` from `other`; `parameters` is
not assigned. -/
def AssetScheme.overwrite_with (self other : AssetScheme) : AssetScheme :=
  { self with
    metadata := other.metadata
    lock_script := other.lock_script
    registrar := other.registrar
    remainder := other.remainder }

/-- `AssetScheme::is_null`. -/
def AssetScheme.is_null (self : AssetScheme) : Bool :=
  self.remainder = 0

/-- `AssetSchemeAddress`: a newtype over `H256`. -/
structure AssetSchemeAddress where
  hash : List Nat
deriving DecidableEq

/-- `From<H256> for AssetSchemeAddress`: overwrite bytes `0..8` of the
hash with the byte 83 (ASCII capital S) followed by seven zero bytes, and
wrap the result. -/
def assetSchemeAddressFrom (hash : List Nat) : AssetSchemeAddress :=
  ⟨[83, 0, 0, 0, 0, 0, 0, 0] ++ hash.drop 8⟩

/-- `Into<H256> for AssetSchemeAddress`: unwrap the stored hash. -/
def AssetSchemeAddress.into (self : AssetSchemeAddress) : List Nat :=
  self.hash

end Asset

namespace Net

theorem hmGet_eq_none_iff (m : List (String × Extension)) (k : String) :
    hmGet m k = none ↔ k ∉ m.map Prod.fst := by
  induction m with
  | nil => simp [hmGet]
  | cons p rest ih =>
    obtain ⟨k0, v0⟩ := p
    by_cases h : k0 = k
    · subst h
      simp [hmGet]
    · simp [hmGet, h, ih, Ne.symm h]

theorem hmGet_mem {m : List (String × Extension)} {k : String} {v : Extension}
    (h : hmGet m k = some v) : (k, v) ∈ m := by
  induction m with
  | nil => simp [hmGet] at h
  | cons p rest ih =>
    obtain ⟨k0, v0⟩ := p
    by_cases hk : k0 = k
    · subst hk
      simp [hmGet] at h
      simp [h]
    · simp [hmGet, hk] at h
      exact List.mem_cons_of_mem _ (ih h)

theorem mem_hmGet {m : List (String × Extension)} {k : String} {v : Extension}
    (hnd : (m.map Prod.fst).Nodup) (h : (k, v) ∈ m) : hmGet m k = some v := by
  induction m with
  | nil => simp at h
  | cons p rest ih =>
    obtain ⟨k0, v0⟩ := p
    simp only [List.map_cons, List.nodup_cons] at hnd
    rcases List.mem_cons.mp h with h1 | h1
    · obtain ⟨rfl, rfl⟩ := Prod.mk.injEq .. ▸ h1
      simp_all [hmGet]
    · have hk : k0 ≠ k := by
        rintro rfl
        exact hnd.1 (List.mem_map.mpr ⟨(k0, v), h1, rfl⟩)
      simp [hmGet, hk, ih hnd.2 h1]

theorem hmInsert_snd (m : List (String × Extension)) (k : String) (v : Extension) :
    (hmInsert m k v).2 = hmGet m k := by
  induction m with
  | nil => simp [hmInsert, hmGet]
  | cons p rest ih =>
    obtain ⟨k0, v0⟩ := p
    by_cases h : k0 = k
    · simp [hmInsert, hmGet, h]
    · simp [hmInsert, hmGet, h, ih]

theorem hmInsert_of_none {m : List (String × Extension)} {k : String} (v : Extension)
    (h : hmGet m k = none) : (hmInsert m k v).1 = m ++ [(k, v)] := by
  induction m with
  | nil => simp [hmInsert]
  | cons p rest ih =>
    obtain ⟨k0, v0⟩ := p
    by_cases hk : k0 = k
    · simp [hmGet, hk] at h
    · simp [hmGet, hk] at h
      simp [hmInsert, hk, ih h]

theorem hmGet_hmInsert_self (m : List (String × Extension)) (k : String) (v : Extension) :
    hmGet (hmInsert m k v).1 k = some v := by
  induction m with
  | nil => simp [hmInsert, hmGet]
  | cons p rest ih =>
    obtain ⟨k0, v0⟩ := p
    by_cases h : k0 = k
    · simp [hmInsert, hmGet, h]
    · simp [hmInsert, hmGet, h, ih]

theorem wfm_insert {m : List (String × Extension)} (hwf : wfm m) (v : Extension)
    (h : hmGet m v.name = none) : wfm (m ++ [(v.name, v)]) := by
  obtain ⟨hnd, hk⟩ := hwf
  constructor
  · rw [List.map_append]
    refine List.Nodup.append hnd (by simp) ?_
    intro a ha hb
    simp at hb
    subst hb
    exact (hmGet_eq_none_iff m v.name).mp h ha
  · intro p hp
    rcases List.mem_append.mp hp with h1 | h1
    · exact hk p h1
    · simp at h1
      subst h1
      rfl

theorem broadcast_not_mem {m : List (String × Extension)} {e : Extension} {cb : Callback}
    (hk : ∀ p ∈ m, p.1 = p.2.name) (h : e.name ∉ m.map Prod.fst) :
    (e, cb) ∉ m.map (fun p => (p.2, cb)) := by
  intro hmem
  rcases List.mem_map.mp hmem with ⟨p, hp, heq⟩
  have h2 : p.2 = e := (Prod.mk.injEq .. ▸ heq).1
  exact h (List.mem_map.mpr ⟨p, hp, by rw [hk p hp, h2]⟩)

theorem count_broadcast (m : List (String × Extension)) (hwf : wfm m) (e : Extension)
    (cb : Callback) :
    ((m.map (fun p => (p.2, cb))).count (e, cb)) = if (e.name, e) ∈ m then 1 else 0 := by
  induction m with
  | nil => simp
  | cons p rest ih =>
    obtain ⟨k0, v0⟩ := p
    obtain ⟨hnd, hk⟩ := hwf
    simp only [List.map_cons, List.nodup_cons] at hnd
    have hk0 : k0 = v0.name := hk (k0, v0) (by simp)
    have ihr := ih ⟨hnd.2, fun q hq => hk q (List.mem_cons_of_mem _ hq)⟩
    by_cases hv : v0 = e
    · subst hv
      subst hk0
      have hzero : ((rest.map (fun p => (p.2, cb))).count (v0, cb)) = 0 :=
        List.count_eq_zero.mpr (broadcast_not_mem
          (fun q hq => hk q (List.mem_cons_of_mem _ hq)) hnd.1)
      simp [List.count_cons, hzero]
    · have hne : ((v0, cb) : Event) ≠ (e, cb) := by
        simp [Prod.ext_iff]
        intro hc
        exact absurd hc hv
      have hmem : ((e.name, e) ∈ (k0, v0) :: rest) ↔ ((e.name, e) ∈ rest) := by
        simp only [List.mem_cons]
        constructor
        · rintro (hc | hc)
          · exact absurd (Prod.mk.injEq .. ▸ hc).2.symm hv
          · exact hc
        · exact fun hc => Or.inr hc
      rw [List.map_cons, List.count_cons]
      simp only [hmem, ihr]
      simp [hne]

theorem broadcast_mem {st : ClientState} {cb : Callback} {ev : Event}
    (hwf : wfm st.extensions) (h : ev ∈ (broadcastDispatch st cb).1) :
    Registered st ev.1 ∧ ev.2 = cb := by
  simp only [broadcastDispatch] at h
  rcases List.mem_map.mp h with ⟨p, hp, heq⟩
  subst heq
  exact ⟨by rw [Registered, ← hwf.2 p hp]; exact hp, rfl⟩

theorem targeted_mem {st : ClientState} {n : String} {cb : Callback} {ev : Event}
    (hwf : wfm st.extensions) (h : ev ∈ (targetedDispatch st n cb).1) :
    Registered st ev.1 ∧ ev.2 = cb := by
  unfold targetedDispatch at h
  cases hg : hmGet st.extensions n with
  | none => rw [hg] at h; simp at h
  | some e =>
    rw [hg] at h
    simp at h
    subst h
    have hmem := hmGet_mem hg
    have hn : n = e.name := hwf.2 (n, e) hmem
    exact ⟨by rw [Registered]; rw [hn] at hmem; exact hmem, rfl⟩

end Net

namespace Net

theorem register_success {st : ClientState} {e : Extension} {ch : Nat}
    (h : hmGet st.extensions e.name = none) :
    register_extension st e ch =
      ⟨⟨st.extensions ++ [(e.name, e)]⟩, false, [(e, Callback.Initialize)], some ⟨e.extId, ch⟩⟩ := by
  simp [register_extension, hmInsert_snd, h, hmInsert_of_none e h]

theorem register_panic {st : ClientState} {e : Extension} {ch : Nat} {old : Extension}
    (h : hmGet st.extensions e.name = some old) :
    register_extension st e ch = ⟨⟨(hmInsert st.extensions e.name e).1⟩, true, [], none⟩ := by
  simp [register_extension, hmInsert_snd, h]

theorem dispatchOf_mem {st : ClientState} {op : Op} {ev : Event}
    (hwf : wfm st.extensions) (h : ev ∈ (dispatchOf st op).1) :
    Registered st ev.1 ∧ ev.2 ≠ Callback.Initialize := by
  cases op with
  | register extension channel => simp [dispatchOf] at h
  | dropClient => simp [dispatchOf] at h
  | nodeAdded id =>
    obtain ⟨h1, h2⟩ := broadcast_mem hwf (h : ev ∈ (broadcastDispatch st (Callback.NodeAdded id)).1)
    exact ⟨h1, by simp [h2]⟩
  | nodeRemoved id =>
    obtain ⟨h1, h2⟩ := broadcast_mem hwf (h : ev ∈ (broadcastDispatch st (Callback.NodeRemoved id)).1)
    exact ⟨h1, by simp [h2]⟩
  | connected name id =>
    obtain ⟨h1, h2⟩ := targeted_mem hwf (h : ev ∈ (targetedDispatch st name (Callback.Connected id)).1)
    exact ⟨h1, by simp [h2]⟩
  | connectionAllowed name id =>
    obtain ⟨h1, h2⟩ := targeted_mem hwf (h : ev ∈ (targetedDispatch st name (Callback.ConnectionAllowed id)).1)
    exact ⟨h1, by simp [h2]⟩
  | connectionDenied name id err =>
    obtain ⟨h1, h2⟩ := targeted_mem hwf (h : ev ∈ (targetedDispatch st name (Callback.ConnectionDenied id err)).1)
    exact ⟨h1, by simp [h2]⟩
  | message name id data =>
    obtain ⟨h1, h2⟩ := targeted_mem hwf (h : ev ∈ (targetedDispatch st name (Callback.Message id data)).1)
    exact ⟨h1, by simp [h2]⟩
  | timerSetAllowed name timer_id =>
    obtain ⟨h1, h2⟩ := targeted_mem hwf (h : ev ∈ (targetedDispatch st name (Callback.TimerSetAllowed timer_id)).1)
    exact ⟨h1, by simp [h2]⟩
  | timerSetDenied name timer_id err =>
    obtain ⟨h1, h2⟩ := targeted_mem hwf (h : ev ∈ (targetedDispatch st name (Callback.TimerSetDenied timer_id err)).1)
    exact ⟨h1, by simp [h2]⟩
  | timeout name timer_id =>
    obtain ⟨h1, h2⟩ := targeted_mem hwf (h : ev ∈ (targetedDispatch st name (Callback.Timeout timer_id)).1)
    exact ⟨h1, by simp [h2]⟩

theorem runC_cons (st : ClientState) (op : Op) (ops : List Op) :
    runC st (op :: ops) =
      if (step st op).halted then ⟨(step st op).state, (step st op).events, true⟩
      else ⟨(runC (step st op).state ops).state,
            (step st op).events ++ (runC (step st op).state ops).events,
            (runC (step st op).state ops).halted⟩ := rfl

theorem filterFor_append (e : Extension) (l1 l2 : List Event) :
    filterFor e (l1 ++ l2) = filterFor e l1 ++ filterFor e l2 := by
  simp [filterFor]

theorem filterFor_eq_nil {e : Extension} {l : List Event}
    (h : ∀ ev ∈ l, ev.1 ≠ e) : filterFor e l = [] := by
  rw [filterFor, List.filter_eq_nil_iff]
  intro ev hev
  simp [h ev hev]

end Net

namespace Net

theorem no_reinit_dispatch {e : Extension} {st : ClientState} {op : Op} {ops : List Op}
    (hwf : wfm st.extensions)
    (hstep : step st op = ⟨st, (dispatchOf st op).1, false⟩)
    (hrest : (e, Callback.Initialize) ∉ (runC st ops).events) :
    (e, Callback.Initialize) ∉ (runC st (op :: ops)).events := by
  rw [runC_cons, hstep]
  simp only [Bool.false_eq_true, if_false]
  intro hmem
  rcases List.mem_append.mp hmem with h1 | h1
  · exact (dispatchOf_mem hwf h1).2 rfl
  · exact hrest h1

theorem run_no_reinit {e : Extension} (ops : List Op) :
    ∀ st : ClientState, wfm st.extensions → Registered st e →
      (e, Callback.Initialize) ∉ (runC st ops).events := by
  induction ops with
  | nil => intro st hwf hreg; simp [runC]
  | cons op ops ih =>
    intro st hwf hreg
    cases op with
    | register ext ch =>
      cases hg : hmGet st.extensions ext.name with
      | some old =>
        rw [runC_cons]
        simp [step, register_panic hg]
      | none =>
        have hne : ext ≠ e := by
          rintro rfl
          exact (hmGet_eq_none_iff st.extensions ext.name).mp hg
            (List.mem_map.mpr ⟨(ext.name, ext), hreg, rfl⟩)
        rw [runC_cons]
        simp only [step, register_success hg]
        simp only [Bool.false_eq_true, if_false]
        intro hmem
        rcases List.mem_append.mp hmem with h1 | h1
        · simp at h1
          exact hne h1.symm
        · have hwf2 : wfm ((⟨st.extensions ++ [(ext.name, ext)]⟩ : ClientState).extensions) :=
            wfm_insert hwf ext hg
          have hreg2 : Registered ⟨st.extensions ++ [(ext.name, ext)]⟩ e :=
            List.mem_append.mpr (Or.inl hreg)
          exact ih _ hwf2 hreg2 h1
    | dropClient =>
      rw [runC_cons]
      simp only [step, if_true]
      intro hmem
      have hmem2 : ((e, Callback.Initialize) : Event) ∈ (broadcastDispatch st Callback.Close).1 := hmem
      have h2 := (broadcast_mem hwf hmem2).2
      simp at h2
    | nodeAdded id => exact no_reinit_dispatch hwf rfl (ih st hwf hreg)
    | nodeRemoved id => exact no_reinit_dispatch hwf rfl (ih st hwf hreg)
    | connected name id => exact no_reinit_dispatch hwf rfl (ih st hwf hreg)
    | connectionAllowed name id => exact no_reinit_dispatch hwf rfl (ih st hwf hreg)
    | connectionDenied name id err => exact no_reinit_dispatch hwf rfl (ih st hwf hreg)
    | message name id data => exact no_reinit_dispatch hwf rfl (ih st hwf hreg)
    | timerSetAllowed name timer_id => exact no_reinit_dispatch hwf rfl (ih st hwf hreg)
    | timerSetDenied name timer_id err => exact no_reinit_dispatch hwf rfl (ih st hwf hreg)
    | timeout name timer_id => exact no_reinit_dispatch hwf rfl (ih st hwf hreg)

end Net

namespace Net

theorem first_init_dispatch {e : Extension} {st : ClientState} {op : Op} {ops : List Op}
    (hwf : wfm st.extensions) (hnreg : ¬ Registered st e)
    (hstep : step st op = ⟨st, (dispatchOf st op).1, false⟩)
    (hrest : filterFor e (runC st ops).events = [] ∨
      ∃ t, filterFor e (runC st ops).events = (e, Callback.Initialize) :: t ∧
        (e, Callback.Initialize) ∉ t) :
    filterFor e (runC st (op :: ops)).events = [] ∨
    ∃ t, filterFor e (runC st (op :: ops)).events = (e, Callback.Initialize) :: t ∧
      (e, Callback.Initialize) ∉ t := by
  rw [runC_cons, hstep]
  simp only [Bool.false_eq_true, if_false]
  have hnil : filterFor e (dispatchOf st op).1 = [] := by
    apply filterFor_eq_nil
    intro ev hev
    rintro rfl
    exact hnreg (dispatchOf_mem hwf hev).1
  rw [filterFor_append, hnil, List.nil_append]
  exact hrest

theorem run_first_init {e : Extension} (ops : List Op) :
    ∀ st : ClientState, wfm st.extensions → ¬ Registered st e →
      filterFor e (runC st ops).events = [] ∨
      ∃ t, filterFor e (runC st ops).events = (e, Callback.Initialize) :: t ∧
        (e, Callback.Initialize) ∉ t := by
  induction ops with
  | nil => intro st hwf hnreg; left; simp [runC, filterFor]
  | cons op ops ih =>
    intro st hwf hnreg
    cases op with
    | register ext ch =>
      cases hg : hmGet st.extensions ext.name with
      | some old =>
        rw [runC_cons]
        simp only [step, register_panic hg]
        left
        simp [filterFor]
      | none =>
        rw [runC_cons]
        simp only [step, register_success hg]
        simp only [Bool.false_eq_true, if_false]
        have hwf2 : wfm ((⟨st.extensions ++ [(ext.name, ext)]⟩ : ClientState).extensions) :=
          wfm_insert hwf ext hg
        by_cases he : ext = e
        · subst he
          right
          refine ⟨filterFor ext (runC ⟨st.extensions ++ [(ext.name, ext)]⟩ ops).events, ?_, ?_⟩
          · rw [filterFor_append]
            simp [filterFor]
          · intro hmem
            have hreg2 : Registered ⟨st.extensions ++ [(ext.name, ext)]⟩ ext :=
              List.mem_append.mpr (Or.inr (by simp))
            exact run_no_reinit ops _ hwf2 hreg2 (List.mem_of_mem_filter hmem)
        · have hnreg2 : ¬ Registered ⟨st.extensions ++ [(ext.name, ext)]⟩ e := by
            intro hc
            rcases List.mem_append.mp hc with h1 | h1
            · exact hnreg h1
            · simp at h1
              exact he h1.2.symm
          have hrest := ih _ hwf2 hnreg2
          rw [filterFor_append]
          have hnil : filterFor e [(ext, Callback.Initialize)] = [] := by
            apply filterFor_eq_nil
            intro ev hev
            simp at hev
            subst hev
            exact he
          rw [hnil, List.nil_append]
          exact hrest
    | dropClient =>
      rw [runC_cons]
      simp only [step, if_true]
      left
      apply filterFor_eq_nil
      intro ev hev
      rintro rfl
      have hev2 : ev ∈ (broadcastDispatch st Callback.Close).1 := hev
      exact hnreg (broadcast_mem hwf hev2).1
    | nodeAdded id => exact first_init_dispatch hwf hnreg rfl (ih st hwf hnreg)
    | nodeRemoved id => exact first_init_dispatch hwf hnreg rfl (ih st hwf hnreg)
    | connected name id => exact first_init_dispatch hwf hnreg rfl (ih st hwf hnreg)
    | connectionAllowed name id => exact first_init_dispatch hwf hnreg rfl (ih st hwf hnreg)
    | connectionDenied name id err => exact first_init_dispatch hwf hnreg rfl (ih st hwf hnreg)
    | message name id data => exact first_init_dispatch hwf hnreg rfl (ih st hwf hnreg)
    | timerSetAllowed name timer_id => exact first_init_dispatch hwf hnreg rfl (ih st hwf hnreg)
    | timerSetDenied name timer_id err => exact first_init_dispatch hwf hnreg rfl (ih st hwf hnreg)
    | timeout name timer_id => exact first_init_dispatch hwf hnreg rfl (ih st hwf hnreg)

theorem runC_stops_at_drop (ops1 : List Op) :
    ∀ (st : ClientState) (ops2 : List Op),
      (runC st (ops1 ++ Op.dropClient :: ops2)).events =
      (runC st (ops1 ++ [Op.dropClient])).events := by
  induction ops1 with
  | nil => intro st ops2; rfl
  | cons op ops1 ih =>
    intro st ops2
    simp only [List.cons_append]
    rw [runC_cons, runC_cons]
    by_cases h : (step st op).halted
    · simp [h]
    · simp [h, ih]

end Net

namespace Net

theorem hmGet_append_of_none {m : List (String × Extension)} {k : String}
    (h : hmGet m k = none) (l : List (String × Extension)) :
    hmGet (m ++ l) k = hmGet l k := by
  induction m with
  | nil => simp
  | cons p rest ih =>
    obtain ⟨k0, v0⟩ := p
    by_cases hk : k0 = k
    · simp [hmGet, hk] at h
    · simp [hmGet, hk] at h ⊢
      exact ih h

end Net

open Net in
/-- Claim C1 counterexample: register an extension named `e`, then attempt
to register a second, distinct extension under the same name.  The second
call panics, but at the moment of the panic the registry maps `e` to the
duplicate, not to the originally registered extension, so the original
entry does not remain and the state does not survive uncorrupted. -/
theorem c1_counterexample :
    (register_extension (register_extension Client.new extA 0).state extB 0).panicked = true ∧
    hmGet (register_extension (register_extension Client.new extA 0).state extB 0).state.extensions
      "e" = some extB ∧
    extB ≠ extA := by
  decide

open Net in
/-- Claim C1 (amended): attempting to register an extension whose name
already exists in the registry is detected and fails fatally (panic), but
the registry state does not survive the failed attempt unchanged: because
`HashMap::insert` runs before the duplicate check, at the moment of the
panic the name maps to the rejected duplicate, not to the originally
registered extension. -/
theorem c1_duplicate_replaces_before_panic (st : ClientState) (ext old : Extension)
    (ch : Nat) (h : hmGet st.extensions ext.name = some old) :
    (register_extension st ext ch).panicked = true ∧
    hmGet (register_extension st ext ch).state.extensions ext.name = some ext := by
  rw [register_panic h]
  exact ⟨rfl, hmGet_hmInsert_self st.extensions ext.name ext⟩

open Net in
/-- Witness for the amended C1 at a concrete registry. -/
theorem c1_witness :
    hmGet (⟨[("e", extA)]⟩ : ClientState).extensions extB.name = some extA ∧
    ((register_extension ⟨[("e", extA)]⟩ extB 0).panicked = true ∧
      hmGet (register_extension ⟨[("e", extA)]⟩ extB 0).state.extensions extB.name = some extB) :=
  ⟨by decide, c1_duplicate_replaces_before_panic ⟨[("e", extA)]⟩ extB extA 0 (by decide)⟩

open Net in
/-- Claim C2: of two registration calls with extensions of equal name
against a registry in which the name is still free, exactly one succeeds:
the first returns normally with an `Api`, and the second panics, returns
no `Api` and performs no dispatch (the duplicate is not silently
accepted). -/
theorem c2_duplicate_registration_panics (st : ClientState) (e1 e2 : Extension)
    (ch1 ch2 : Nat) (hname : e1.name = e2.name)
    (h : hmGet st.extensions e1.name = none) :
    (register_extension st e1 ch1).panicked = false ∧
    (register_extension st e1 ch1).api = some ⟨e1.extId, ch1⟩ ∧
    (register_extension (register_extension st e1 ch1).state e2 ch2).panicked = true ∧
    (register_extension (register_extension st e1 ch1).state e2 ch2).api = none ∧
    (register_extension (register_extension st e1 ch1).state e2 ch2).events = [] := by
  rw [register_success h]
  have h2 : hmGet (st.extensions ++ [(e1.name, e1)]) e2.name = some e1 := by
    rw [← hname, hmGet_append_of_none h]
    simp [hmGet]
  refine ⟨rfl, rfl, ?_, ?_, ?_⟩ <;> rw [register_panic h2]

open Net in
/-- Witness for C2 at a concrete pair of registrations. -/
theorem c2_witness :
    extA.name = extB.name ∧ hmGet Client.new.extensions extA.name = none ∧
    ((register_extension Client.new extA 0).panicked = false ∧
     (register_extension Client.new extA 0).api = some ⟨extA.extId, 0⟩ ∧
     (register_extension (register_extension Client.new extA 0).state extB 1).panicked = true ∧
     (register_extension (register_extension Client.new extA 0).state extB 1).api = none ∧
     (register_extension (register_extension Client.new extA 0).state extB 1).events = []) :=
  ⟨by decide, by decide,
    c2_duplicate_registration_panics Client.new extA extB 0 1 (by decide) (by decide)⟩

open Net in
/-- Claim C3: in any run from a fresh `Client`, an extension that observes
any callback at all has observed `on_initialize` exactly once, and every
callback other than `on_initialize` is preceded in the trace by that
`on_initialize` of that extension (which `register_extension` invokes
synchronously before returning, so no dispatch can reach the extension
first). -/
theorem c3_initialize_first (ops : List Op) (e : Extension) :
    (∀ cb : Callback, (e, cb) ∈ trace ops →
      (trace ops).count (e, Callback.Initialize) = 1) ∧
    (∀ (pre : List Event) (cb : Callback) (post : List Event),
      trace ops = pre ++ (e, cb) :: post → cb ≠ Callback.Initialize →
      (e, Callback.Initialize) ∈ pre) := by
  have hwf : wfm Client.new.extensions := ⟨List.nodup_nil, by simp [Client.new]⟩
  have hnreg : ¬ Registered Client.new e := by simp [Registered, Client.new]
  have hmain : filterFor e (trace ops) = [] ∨
      ∃ t, filterFor e (trace ops) = (e, Callback.Initialize) :: t ∧
        (e, Callback.Initialize) ∉ t :=
    run_first_init ops Client.new hwf hnreg
  have hcf : (filterFor e (trace ops)).count (e, Callback.Initialize) =
      (trace ops).count (e, Callback.Initialize) :=
    List.count_filter (by simp)
  constructor
  · intro cb hmem
    have hmemf : (e, cb) ∈ filterFor e (trace ops) :=
      List.mem_filter.mpr ⟨hmem, by simp⟩
    rcases hmain with hnil | ⟨t, ht, hnt⟩
    · rw [hnil] at hmemf
      simp at hmemf
    · rw [← hcf, ht, List.count_cons_self, List.count_eq_zero.mpr hnt]
  · intro pre cb post heq hne
    rcases hmain with hnil | ⟨t, ht, hnt⟩
    · exfalso
      have hmemf : (e, cb) ∈ filterFor e (trace ops) :=
        List.mem_filter.mpr ⟨by rw [heq]; simp, by simp⟩
      rw [hnil] at hmemf
      simp at hmemf
    · have hsplit : filterFor e (trace ops) =
          filterFor e pre ++ (e, cb) :: filterFor e post := by
        rw [heq, filterFor_append]
        congr 1
        simp [filterFor]
      cases hpre : filterFor e pre with
      | nil =>
        rw [hpre, List.nil_append] at hsplit
        rw [hsplit] at ht
        exfalso
        apply hne
        have hhead := List.head_eq_of_cons_eq ht
        exact (Prod.mk.injEq .. ▸ hhead).2
      | cons a l =>
        rw [hpre] at hsplit
        rw [hsplit, List.cons_append] at ht
        have ha : a = (e, Callback.Initialize) := List.head_eq_of_cons_eq ht
        have hamem : a ∈ filterFor e pre := by
          rw [hpre]
          exact List.mem_cons_self a l
        rw [ha] at hamem
        exact List.mem_of_mem_filter hamem

open Net in
/-- Witness for C3: register `extC`, then broadcast `on_node_added`; the
trace is `[Initialize, NodeAdded]` for `extC`, with exactly one
`Initialize`, and the `NodeAdded` event is preceded by the `Initialize`. -/
theorem c3_witness :
    (extC, Callback.NodeAdded 1) ∈ trace [Op.register extC 0, Op.nodeAdded 1] ∧
    (trace [Op.register extC 0, Op.nodeAdded 1]).count (extC, Callback.Initialize) = 1 ∧
    (extC, Callback.Initialize) ∈ [(extC, Callback.Initialize)] :=
  ⟨by decide,
   (c3_initialize_first [Op.register extC 0, Op.nodeAdded 1] extC).1
     (Callback.NodeAdded 1) (by decide),
   (c3_initialize_first [Op.register extC 0, Op.nodeAdded 1] extC).2
     [(extC, Callback.Initialize)] (Callback.NodeAdded 1) [] (by decide) (by decide)⟩

open Net in
/-- Claim C4: the destructor of `Client` broadcasts `on_close`: every
still-registered extension observes exactly one `Close` event, the
destructor delivers nothing but `Close` events to registered extensions,
and once `dropClient` occurs in a run, operations after it contribute no
events (no dispatch is delivered after destruction). -/
theorem c4_drop_broadcasts_close (st : ClientState) (hwf : wfm st.extensions) :
    (∀ e : Extension, Registered st e → (clientDrop st).count (e, Callback.Close) = 1) ∧
    (∀ ev ∈ clientDrop st, ev.2 = Callback.Close ∧ Registered st ev.1) ∧
    (∀ ops1 ops2 : List Op,
      (runC st (ops1 ++ Op.dropClient :: ops2)).events =
      (runC st (ops1 ++ [Op.dropClient])).events) := by
  refine ⟨?_, ?_, ?_⟩
  · intro e hreg
    have hshow : clientDrop st = st.extensions.map (fun p => (p.2, Callback.Close)) := rfl
    rw [hshow, count_broadcast st.extensions hwf e Callback.Close,
      if_pos (show (e.name, e) ∈ st.extensions from hreg)]
  · intro ev hev
    obtain ⟨h1, h2⟩ :=
      broadcast_mem hwf (show ev ∈ (broadcastDispatch st Callback.Close).1 from hev)
    exact ⟨h2, h1⟩
  · intro ops1 ops2
    exact runC_stops_at_drop ops1 st ops2

open Net in
/-- Witness for C4 at a registry holding `extC` and `extD`. -/
theorem c4_witness :
    wfm (⟨[("e1", extC), ("e2", extD)]⟩ : ClientState).extensions ∧
    Registered ⟨[("e1", extC), ("e2", extD)]⟩ extC ∧
    (clientDrop ⟨[("e1", extC), ("e2", extD)]⟩).count (extC, Callback.Close) = 1 ∧
    (runC ⟨[("e1", extC), ("e2", extD)]⟩ ([] ++ Op.dropClient :: [Op.nodeAdded 5])).events =
      (runC ⟨[("e1", extC), ("e2", extD)]⟩ ([] ++ [Op.dropClient])).events :=
  ⟨by decide, by decide,
   (c4_drop_broadcasts_close ⟨[("e1", extC), ("e2", extD)]⟩ (by decide)).1 extC (by decide),
   (c4_drop_broadcasts_close ⟨[("e1", extC), ("e2", extD)]⟩ (by decide)).2.2 [] [Op.nodeAdded 5]⟩

open Net in
/-- Claim C5: each broadcast dispatch (`on_node_added`, `on_node_removed`,
`on_close`) invokes the corresponding handler exactly once on every
registered extension and only on registered extensions; each targeted
dispatch invokes the handler exactly on the extension registered under
the addressed name and on no other (the invocation list is the singleton
for that extension). -/
theorem c5_dispatch_semantics (st : ClientState) (e : Extension) (id : Nat)
    (name : String) (data : List Nat) (err : Nat) (timer_id : Nat)
    (hwf : wfm st.extensions) :
    (Registered st e →
      (on_node_added st id).1.count (e, Callback.NodeAdded id) = 1 ∧
      (on_node_removed st id).1.count (e, Callback.NodeRemoved id) = 1 ∧
      (on_close st).1.count (e, Callback.Close) = 1) ∧
    (∀ cb : Callback, ∀ ev ∈ (broadcastDispatch st cb).1, Registered st ev.1) ∧
    (hmGet st.extensions name = some e →
      on_message st name id data = ([(e, Callback.Message id data)], []) ∧
      on_connected st name id = ([(e, Callback.Connected id)], []) ∧
      on_connection_allowed st name id = ([(e, Callback.ConnectionAllowed id)], []) ∧
      on_connection_denied st name id err = ([(e, Callback.ConnectionDenied id err)], []) ∧
      on_timer_set_allowed st name timer_id = ([(e, Callback.TimerSetAllowed timer_id)], []) ∧
      on_timer_set_denied st name timer_id err = ([(e, Callback.TimerSetDenied timer_id err)], []) ∧
      on_timeout st name timer_id = ([(e, Callback.Timeout timer_id)], [])) := by
  refine ⟨?_, ?_, ?_⟩
  · intro hreg
    have hc : ∀ cb : Callback, ((st.extensions.map (fun p => (p.2, cb))).count (e, cb)) = 1 := by
      intro cb
      rw [count_broadcast st.extensions hwf e cb,
        if_pos (show (e.name, e) ∈ st.extensions from hreg)]
    exact ⟨hc _, hc _, hc _⟩
  · intro cb ev hev
    exact (broadcast_mem hwf hev).1
  · intro hg
    have ht : ∀ cb : Callback, targetedDispatch st name cb = ([(e, cb)], []) := by
      intro cb
      simp [targetedDispatch, hg]
    exact ⟨ht _, ht _, ht _, ht _, ht _, ht _, ht _⟩

open Net in
/-- Witness for C5: a registry holding `extC` (name `e1`) and `extD`
(name `e2`); a broadcast reaches `extD` once, the message addressed to
`e1` reaches exactly `extC`. -/
theorem c5_witness :
    wfm (⟨[("e1", extC), ("e2", extD)]⟩ : ClientState).extensions ∧
    Registered ⟨[("e1", extC), ("e2", extD)]⟩ extD ∧
    (on_node_added ⟨[("e1", extC), ("e2", extD)]⟩ 1).1.count (extD, Callback.NodeAdded 1) = 1 ∧
    hmGet (⟨[("e1", extC), ("e2", extD)]⟩ : ClientState).extensions "e1" = some extC ∧
    on_message ⟨[("e1", extC), ("e2", extD)]⟩ "e1" 1 [] = ([(extC, Callback.Message 1 [])], []) :=
  ⟨by decide, by decide,
   ((c5_dispatch_semantics ⟨[("e1", extC), ("e2", extD)]⟩ extD 1 "e1" [] 0 0 (by decide)).1
     (by decide)).1,
   by decide,
   ((c5_dispatch_semantics ⟨[("e1", extC), ("e2", extD)]⟩ extC 1 "e1" [] 0 0 (by decide)).2.2
     (by decide)).1⟩

open Net in
/-- Claim C6: a targeted dispatch addressed to a name not present in the
registry returns normally, invokes no extension handler, raises no error,
and its only observable effect is the log line that the destination does
not exist. -/
theorem c6_unknown_target_noop (st : ClientState) (name : String) (id : Nat)
    (data : List Nat) (err : Nat) (timer_id : Nat)
    (h : hmGet st.extensions name = none) :
    on_message st name id data = ([], [LogLine.doesNotExist name]) ∧
    on_connected st name id = ([], [LogLine.doesNotExist name]) ∧
    on_connection_allowed st name id = ([], [LogLine.doesNotExist name]) ∧
    on_connection_denied st name id err = ([], [LogLine.doesNotExist name]) ∧
    on_timer_set_allowed st name timer_id = ([], [LogLine.doesNotExist name]) ∧
    on_timer_set_denied st name timer_id err = ([], [LogLine.doesNotExist name]) ∧
    on_timeout st name timer_id = ([], [LogLine.doesNotExist name]) := by
  have ht : ∀ cb : Callback, targetedDispatch st name cb = ([], [LogLine.doesNotExist name]) := by
    intro cb
    simp [targetedDispatch, h]
  exact ⟨ht _, ht _, ht _, ht _, ht _, ht _, ht _⟩

open Net in
/-- Witness for C6: a fresh registry and the never-registered name `x`. -/
theorem c6_witness :
    hmGet Client.new.extensions "x" = none ∧
    on_message Client.new "x" 1 [] = ([], [LogLine.doesNotExist "x"]) ∧
    on_timeout Client.new "x" 2 = ([], [LogLine.doesNotExist "x"]) :=
  ⟨by decide,
   (c6_unknown_target_noop Client.new "x" 1 [] 0 2 (by decide)).1,
   (c6_unknown_target_noop Client.new "x" 1 [] 0 2 (by decide)).2.2.2.2.2.2⟩

open Net in
/-- Claim C7: every `Api` operation first upgrades the weak reference to
the extension; when the extension has been destroyed, each operation is a
safe no-op: no command is handed to the outbound channel and the only
observable effect is the log line that the extension was already
dropped. -/
theorem c7_api_dead_noop (self : ClientApi) (heap : Heap) (channelOk : Bool)
    (id : Nat) (message : List Nat) (timer_id : Nat) (ms : Nat)
    (h : heap self.extension = none) :
    self.send heap channelOk id message = (none, [LogLine.extensionAlreadyDropped]) ∧
    self.connect heap channelOk id = (none, [LogLine.extensionAlreadyDropped]) ∧
    self.set_timer heap channelOk timer_id ms = (none, [LogLine.extensionAlreadyDropped]) ∧
    self.set_timer_once heap channelOk timer_id ms = (none, [LogLine.extensionAlreadyDropped]) ∧
    self.clear_timer heap channelOk timer_id = (none, [LogLine.extensionAlreadyDropped]) := by
  refine ⟨?_, ?_, ?_, ?_, ?_⟩ <;>
    simp [ClientApi.send, ClientApi.connect, ClientApi.set_timer,
      ClientApi.set_timer_once, ClientApi.clear_timer, h]

open Net in
/-- Witness for C7: an `Api` whose weak reference no longer resolves. -/
theorem c7_witness :
    (fun _ => none : Heap) (⟨0, 0⟩ : ClientApi).extension = none ∧
    (ClientApi.send ⟨0, 0⟩ (fun _ => none) true 1 [2]
      = (none, [LogLine.extensionAlreadyDropped]) ∧
     ClientApi.connect ⟨0, 0⟩ (fun _ => none) true 1
      = (none, [LogLine.extensionAlreadyDropped]) ∧
     ClientApi.set_timer ⟨0, 0⟩ (fun _ => none) true 3 4
      = (none, [LogLine.extensionAlreadyDropped]) ∧
     ClientApi.set_timer_once ⟨0, 0⟩ (fun _ => none) true 3 4
      = (none, [LogLine.extensionAlreadyDropped]) ∧
     ClientApi.clear_timer ⟨0, 0⟩ (fun _ => none) true 3
      = (none, [LogLine.extensionAlreadyDropped])) :=
  ⟨rfl, c7_api_dead_noop ⟨0, 0⟩ (fun _ => none) true 1 [2] 3 4 rfl⟩

open Net in
/-- Claim C8: while the extension is alive, `Api::send(node, bytes)` hands
the channel a `SendExtensionMessage` carrying that node identifier, the
payload bytes, the name of the extension, and the `need_encryption()` value of
the extension object as resolved by the weak reference at the time of the
call (the `Api` stores no cached policy: whatever object the upgrade
yields at call time supplies the flag). -/
theorem c8_send_fresh_policy (self : ClientApi) (heap : Heap) (channelOk : Bool)
    (id : Nat) (message : List Nat) (extension : Extension)
    (h : heap self.extension = some extension) :
    (self.send heap channelOk id message).1 =
      some (ConnectionMessage.SendExtensionMessage id extension.name
        extension.need_encryption message) := by
  cases channelOk <;> simp [ClientApi.send, h]

open Net in
/-- Witness for C8: a live heap resolving the weak reference to `extC`. -/
theorem c8_witness :
    (fun i => if i = 3 then some extC else none : Heap) (⟨3, 7⟩ : ClientApi).extension
      = some extC ∧
    (ClientApi.send ⟨3, 7⟩ (fun i => if i = 3 then some extC else none) true 5 [1, 2]).1 =
      some (ConnectionMessage.SendExtensionMessage 5 extC.name extC.need_encryption [1, 2]) :=
  ⟨rfl, c8_send_fresh_policy ⟨3, 7⟩ (fun i => if i = 3 then some extC else none) true 5 [1, 2]
    extC rfl⟩

/-- Claim C9: `AssetScheme::overwrite_with(other)` replaces the
`metadata`, `lock_script`, `registrar` and `remainder` fields with those
of `other` and leaves the `parameters` field of the receiver unchanged. -/
theorem c9_overwrite_with_frame (s o : Asset.AssetScheme) :
    (s.overwrite_with o).metadata = o.metadata ∧
    (s.overwrite_with o).lock_script = o.lock_script ∧
    (s.overwrite_with o).registrar = o.registrar ∧
    (s.overwrite_with o).remainder = o.remainder ∧
    (s.overwrite_with o).parameters = s.parameters :=
  ⟨rfl, rfl, rfl, rfl, rfl⟩

/-- Claim C10: for a 32-byte hash `h`, `AssetSchemeAddress::from(h)` yields
an address whose first 8 bytes are `[83, 0, 0, 0, 0, 0, 0, 0]`
(the byte 83, ASCII capital S) and whose bytes 8 through 31 are those of `h`, and
converting back into a hash returns exactly that prefixed 32-byte value. -/
theorem c10_asset_scheme_address_prefix (h : List Nat) (hlen : h.length = 32) :
    (Asset.assetSchemeAddressFrom h).into.take 8 = [83, 0, 0, 0, 0, 0, 0, 0] ∧
    (Asset.assetSchemeAddressFrom h).into.drop 8 = h.drop 8 ∧
    (Asset.assetSchemeAddressFrom h).into = [83, 0, 0, 0, 0, 0, 0, 0] ++ h.drop 8 ∧
    (Asset.assetSchemeAddressFrom h).into.length = 32 := by
  refine ⟨rfl, rfl, rfl, ?_⟩
  simp [Asset.assetSchemeAddressFrom, Asset.AssetSchemeAddress.into, hlen]

/-- Witness for C10 at a concrete 32-byte hash. -/
theorem c10_witness :
    (List.replicate 32 7).length = 32 ∧
    ((Asset.assetSchemeAddressFrom (List.replicate 32 7)).into.take 8
        = [83, 0, 0, 0, 0, 0, 0, 0] ∧
     (Asset.assetSchemeAddressFrom (List.replicate 32 7)).into.drop 8
        = (List.replicate 32 7).drop 8 ∧
     (Asset.assetSchemeAddressFrom (List.replicate 32 7)).into
        = [83, 0, 0, 0, 0, 0, 0, 0] ++ (List.replicate 32 7).drop 8 ∧
     (Asset.assetSchemeAddressFrom (List.replicate 32 7)).into.length = 32) :=
  ⟨by decide, c10_asset_scheme_address_prefix (List.replicate 32 7) (by decide)⟩
